import Mathlib

/-!
Verification of the AFDB (MIT-BIH atrial fibrillation database) preprocessing
pipeline and model architecture.

The development shallowly embeds the repository's Python sources:

* `src/data_loader.py` — record catalog (`_get_records`), record loading
  (`load_record`) and rhythm label expansion (`_get_rhythm_labels`);
* `src/dataset.py` — sliding-window extraction (`create_windows`), the
  per-record processing loop of `build_datasets` (`process_records`), and the
  record-level train/test split;
* `src/model.py` — the shape behaviour of `KanResInit`, `KanResModule` and
  `KanResWideX` (1-D convolutional residual network).

Numbers are modelled with `Nat`/`Int`/`ℚ`, numpy arrays with `List`, and the
numpy slice assignment `labels[a:b] = v` with an index-guarded map, which
reproduces numpy's clamping of out-of-range and reversed slices.
-/

/-! ## String helpers

Character-list implementations of the Python string operations used by the
sources (`str.startswith`, `str.endswith`, `pathlib.Path.stem`, string
ordering).  They are definitionally transparent so that concrete instances
evaluate inside the kernel. -/

/-- Python `s.startswith(p)`: prefix test on the character data. -/
def strStartsWith (s p : String) : Bool := p.data.isPrefixOf s.data

/-- Python `s.endswith(p)`: suffix test on the character data. -/
def strEndsWith (s p : String) : Bool := p.data.isSuffixOf s.data

/-- Helper for `strStem`: split the reversed character data at its first dot,
returning the characters before it (the reversed extension, dot-free) and the
characters after it (the reversed stem); `none` when there is no dot. -/
def stemRev : List Char → Option (List Char × List Char)
  | [] => none
  | c :: cs =>
    if c = '.' then some ([], cs)
    else
      match stemRev cs with
      | none => none
      | some (pre, post) => some (c :: pre, post)

/-- Python `pathlib.Path(f).stem`: the file name without its suffix.  The
suffix is the part from the last dot onwards, and only exists when that dot
is neither the first nor the last character — so `Path('04015.hea').stem`
is `'04015'` but the dotfile `Path('.hea').stem` is `'.hea'` itself, and a
name without a dot is its own stem. -/
def strStem (s : String) : String :=
  match stemRev s.data.reverse with
  | none => s
  | some (pre, post) =>
    if pre = [] ∨ post = [] then s else String.mk post.reverse

/-- Lexicographic order on strings by character data, as used by Python
`sorted` on `str` (code-point lexicographic comparison). -/
def strLeP (s t : String) : Prop := s.data ≤ t.data

instance : DecidableRel strLeP := fun s t => inferInstanceAs (Decidable (s.data ≤ t.data))

/-! ## data_loader.py — rhythm label expansion (`_get_rhythm_labels`) -/

/-- Lookup `rhythm_map.get(aux, 'other')` with the fixed table from
`_get_rhythm_labels` in `src/data_loader.py`. -/
def rhythm_map (aux : String) : String :=
  if aux = "(AFIB" then "atrial_fibrillation"
  else if aux = "(N" then "normal"
  else if aux = "(AFL" then "atrial_flutter"
  else "other"

/-- Worker for `sliceAssign`: the element at offset `j + k` of the input list
is replaced by `v` when `lo ≤ j + k < hi`. -/
def sliceAssignFrom (j lo hi : Nat) (v : String) : List String → List String
  | [] => []
  | x :: xs => (if lo ≤ j ∧ j < hi then v else x) :: sliceAssignFrom (j + 1) lo hi v xs

/-- Numpy slice assignment `labels[lo:hi] = v` on an object array: every index
`k` with `lo ≤ k < hi` is set to `v`; out-of-range and reversed slices assign
nothing (numpy clamps the slice), and the array length never changes. -/
def sliceAssign (labels : List String) (lo hi : Nat) (v : String) : List String :=
  sliceAssignFrom 0 lo hi v labels

/-- Filter of `_get_rhythm_labels`: keep the `(sample, aux)` pairs with
`aux and aux.startswith('(')` (a `None`/empty auxiliary string is falsy). -/
def rhythm_changes (events : List (Nat × String)) : List (Nat × String) :=
  events.filter (fun e => (!(e.2 == "")) && strStartsWith e.2 "(")

/-- Segment-filling loop of `_get_rhythm_labels`: for each retained boundary
`(sample, aux)` assign `labels[sample:next_sample] = rhythm_map.get(aux,
'other')`, where `next_sample` is the next boundary's sample, or `sig_len`
for the final boundary. -/
def applySegments (sig_len : Nat) : List (Nat × String) → List String → List String
  | [], labels => labels
  | (sample, aux) :: rest, labels =>
    let next_sample := match rest with
      | [] => sig_len
      | (s, _) :: _ => s
    applySegments sig_len rest (sliceAssign labels sample next_sample (rhythm_map aux))

/-- `AFDBDataLoader._get_rhythm_labels` from `src/data_loader.py`: start from
`np.full(sig_len, 'unknown')`, keep the boundary events, and fill each
segment with its mapped rhythm name. -/
def get_rhythm_labels (events : List (Nat × String)) (sig_len : Nat) : List String :=
  applySegments sig_len (rhythm_changes events) (List.replicate sig_len "unknown")

/-- Stated from the specification, for comparison with `get_rhythm_labels`:
the label of sample `j` is `"unknown"` before the first boundary, the mapped
name of the boundary `s_i ≤ j < s_(i+1)` in between, and the mapped name of
the final boundary from its sample onwards. -/
def specSegLabel : List (Nat × String) → Nat → String
  | [], _ => "unknown"
  | (s, a) :: rest, j =>
    if j < s then "unknown"
    else
      match rest with
      | [] => rhythm_map a
      | (s2, _) :: _ => if j < s2 then rhythm_map a else specSegLabel rest j

/-! ## data_loader.py — record loading (`load_record`) -/

/-- Result dictionary of `AFDBDataLoader.load_record` (the fields the claims
are about). -/
structure RecordData where
  record_name : String
  signal : List Int
  fs : Nat
  sig_len : Nat
  rhythm_labels : Option (List String)
deriving DecidableEq, Repr

/-- `AFDBDataLoader.load_record` from `src/data_loader.py`.  The annotation
read `wfdb.rdann(record_path, 'atr')` is passed in as an `Except` value: the
`try`/`except` block turns a failed read into the sentinel
`rhythm_labels = None`, and a successful read into the expanded label array. -/
def load_record (record_name : String) (p_signal : List Int) (fs sig_len : Nat)
    (ann : Except String (List (Nat × String))) : RecordData :=
  { record_name := record_name
    signal := p_signal
    fs := fs
    sig_len := sig_len
    rhythm_labels := match ann with
      | .error _ => none
      | .ok events => some (get_rhythm_labels events sig_len) }

/-! ## data_loader.py — record catalog (`_get_records`) -/

/-- `AFDBDataLoader._get_records` from `src/data_loader.py`: from a directory
listing, keep the `*.hea` files, take their stems, drop stems ending in `'-'`,
and sort. -/
def get_records (files : List String) : List String :=
  List.insertionSort strLeP
    (((files.filter (fun f => strEndsWith f ".hea")).map strStem).filter
      (fun stem => !(strEndsWith stem "-")))

/-! ## dataset.py — windowing (`create_windows`) -/

/-- Python `range(0, stop, step)` restricted to a natural `stop` (the caller
turns a negative Python stop into `0`). -/
def pyRange (stop step : Nat) : List Nat :=
  (List.range ((stop + step - 1) / step)).map (· * step)

/-- Majority-vote label of one window: `1 if np.mean(slice) >= 0.5 else 0`.
The mean of a nonempty slice is `sum / length`; numpy's mean of an empty
slice is `NaN`, and `NaN >= 0.5` is false, giving label `0`. -/
def windowLabel (slice : List Nat) : Nat :=
  if slice.length = 0 then 0
  else if slice.length ≤ 2 * slice.sum then 1 else 0

/-- `create_windows` from `src/dataset.py`: window starts are
`range(0, len(signal) - window_size + 1, stride)` (empty when the Python stop
is nonpositive, i.e. when `len(signal) < window_size`); each window is
`signal[start:start+window_size]` and each label the majority vote of
`labels[start:start+window_size]`. -/
def create_windows (signal : List Int) (labels : List Nat)
    (window_size stride : Nat) : List (List Int) × List Nat :=
  let starts := pyRange (signal.length + 1 - window_size) stride
  (starts.map (fun start => (signal.drop start).take window_size),
   starts.map (fun start => windowLabel ((labels.drop start).take window_size)))

/-! ## dataset.py — per-record processing loop (`process_records`) -/

/-- Outcome of `loader.load_record(record, channels=[0])` as observed by
`process_records`: either the load raised, or it returned a signal together
with an optional rhythm label array (`None` when annotations were absent). -/
inductive LoadResult where
  | err (msg : String)
  | ok (signal : List Int) (rhythm_labels : Option (List String))
deriving DecidableEq, Repr

/-- Conversion `(rhythm_labels == 'atrial_fibrillation').astype(int)` from
`process_records`. -/
def binaryLabels (rhythm_labels : List String) : List Nat :=
  rhythm_labels.map (fun lab => if lab = "atrial_fibrillation" then 1 else 0)

/-- Diagnostic printed by the `except` branch of `process_records`. -/
def errorMessage (record msg : String) : String :=
  "Error with " ++ record ++ ": " ++ msg

/-- Progress line printed by `process_records` after windowing a record. -/
def successMessage (record : String) (nWindows nAF : Nat) : String :=
  record ++ ": " ++ toString nWindows ++ " windows (" ++ toString nAF ++ " AF)"

/-- `process_records` from `src/dataset.py` (the inner function of
`build_datasets`), with `loader.load_record` abstracted as `load`.  Returns
the accumulated windows, the accumulated labels, and the list of printed
diagnostics, in loop order.  A record whose load raises contributes only an
error line; a record whose label array is the `None` sentinel is skipped
silently (`continue` with no print); a usable record contributes its windows,
labels and a progress line. -/
def processRecords (load : String → LoadResult) (record_list : List String)
    (window_size stride : Nat) : List (List Int) × List Nat × List String :=
  match record_list with
  | [] => ([], [], [])
  | record :: rest =>
    let tail := processRecords load rest window_size stride
    match load record with
    | .err e => (tail.1, tail.2.1, errorMessage record e :: tail.2.2)
    | .ok _ none => tail
    | .ok signal (some rhythm_labels) =>
      let wl := create_windows signal (binaryLabels rhythm_labels) window_size stride
      (wl.1 ++ tail.1, wl.2 ++ tail.2.1,
        successMessage record wl.1.length wl.2.sum :: tail.2.2)

/-- Windows and labels contributed by one record, as concatenated by
`process_records` (`np.vstack` / `np.concatenate` over per-record arrays). -/
def recordContribution (load : String → LoadResult) (window_size stride : Nat)
    (record : String) : Option (List (List Int) × List Nat) :=
  match load record with
  | .ok signal (some rhythm_labels) =>
    some (create_windows signal (binaryLabels rhythm_labels) window_size stride)
  | _ => none

/-- Diagnostic line contributed by one record of `process_records`. -/
def recordMessage (load : String → LoadResult) (window_size stride : Nat)
    (record : String) : Option String :=
  match load record with
  | .err e => some (errorMessage record e)
  | .ok _ none => none
  | .ok signal (some rhythm_labels) =>
    some (successMessage record
      (create_windows signal (binaryLabels rhythm_labels) window_size stride).1.length
      (create_windows signal (binaryLabels rhythm_labels) window_size stride).2.sum)

/-! ## dataset.py — train/test split of `build_datasets` -/

/-- Modelled from the spec: `sklearn.model_selection.train_test_split` is not
part of this repository's sources.  Per the spec it performs "a single
record-level random split into train/test using the given seed and fraction —
reproducible across runs given the same seed and record set".  It is therefore
modelled as a function of exactly the record list, the test fraction and the
seed: a seed-keyed deterministic shuffle followed by a split, with the test
part of size `ceil(n * test_size)` (sklearn's rounding). -/
def train_test_split (records : List String) (test_size : ℚ) (random_state : Nat) :
    List String × List String :=
  let n := records.length
  let nTest := min n ((((n : Int) * test_size.num + (test_size.den : Int) - 1)
      / (test_size.den : Int)).toNat)
  let shuffled := records.rotate (random_state % (n + 1))
  (shuffled.drop nTest, shuffled.take nTest)

/-- Record-level split performed by `build_datasets` in `src/dataset.py`:
`train_test_split(records, test_size=test_size, random_state=42)`.  The
`ambientEntropy` argument stands for every run-dependent input (process
entropy, scheduling, iteration order) available to a run; the source fixes
`random_state=42`, so none of it reaches the split. -/
def build_datasets_split (_ambientEntropy : Nat) (records : List String)
    (test_size : ℚ) : List String × List String :=
  train_test_split records test_size 42

/-! ## model.py — shape semantics -/

/-- Shape of a 3-D tensor `(batch, channels, len)` as consumed by the 1-D
convolutional layers. -/
structure TensorShape where
  batch : Nat
  channels : Nat
  len : Nat
deriving DecidableEq, Repr

/-- Shape of `nn.Conv1d(in_c, out_c, k, stride=stride)` (valid padding):
requires the input channel count to match and the kernel to fit, and yields
`floor((len - k) / stride) + 1` output positions. -/
def conv1dValid (in_c out_c k stride : Nat) (s : TensorShape) : Option TensorShape :=
  if s.channels = in_c ∧ 0 < stride ∧ 0 < k ∧ k ≤ s.len then
    some ⟨s.batch, out_c, (s.len - k) / stride + 1⟩
  else none

/-- Shape of `nn.Conv1d(in_c, out_c, k, stride=stride, padding='same')`:
PyTorch accepts `padding='same'` only with stride 1, and then preserves the
sequence length. -/
def conv1dSame (in_c out_c k stride : Nat) (s : TensorShape) : Option TensorShape :=
  if s.channels = in_c ∧ stride = 1 ∧ 0 < k ∧ 0 < s.len then
    some ⟨s.batch, out_c, s.len⟩
  else none

/-- Shape of `nn.BatchNorm1d(features)`: requires the channel count to equal
`features` and preserves the shape. -/
def batchNorm1dShape (features : Nat) (s : TensorShape) : Option TensorShape :=
  if s.channels = features then some s else none

/-- Shape of `nn.ReLU()`: elementwise, shape preserved. -/
def reluShape (s : TensorShape) : Option TensorShape := some s

/-- Shape of `nn.AvgPool1d(kernel_size=k)` (stride defaults to `k`):
requires `k ≤ len` and yields `floor((len - k) / k) + 1` positions. -/
def avgPool1dShape (k : Nat) (s : TensorShape) : Option TensorShape :=
  if 0 < k ∧ k ≤ s.len then some ⟨s.batch, s.channels, (s.len - k) / k + 1⟩ else none

/-- Shape of `nn.AdaptiveAvgPool1d(1)`: requires a nonempty sequence and
collapses it to length 1. -/
def adaptiveAvgPool1Shape (s : TensorShape) : Option TensorShape :=
  if 0 < s.len then some ⟨s.batch, s.channels, 1⟩ else none

/-- Broadcast of one dimension for the elementwise `out + identity`. -/
def broadcastDim (a b : Nat) : Option Nat :=
  if a = b then some a else if a = 1 then some b else if b = 1 then some a else none

/-- Shape of the elementwise sum `out + identity` under PyTorch broadcasting. -/
def addShape (s t : TensorShape) : Option TensorShape := do
  let b ← broadcastDim s.batch t.batch
  let c ← broadcastDim s.channels t.channels
  let l ← broadcastDim s.len t.len
  pure ⟨b, c, l⟩

/-- Shape of `nn.Linear(in_features, out_features)` applied to a 2-D input
`(batch, features)`. -/
def linearShape (in_features out_features : Nat) (s : Nat × Nat) : Option (Nat × Nat) :=
  if s.2 = in_features then some (s.1, out_features) else none

/-- Shape behaviour of `KanResInit.forward` from `src/model.py`:
conv1 (valid) → bn1 → relu1 → conv2 (valid, stride 1) → bn2 → relu2. -/
def KanResInit (in_channels filterno_1 filterno_2 filtersize_1 filtersize_2 stride : Nat)
    (x : TensorShape) : Option TensorShape := do
  let a ← conv1dValid in_channels filterno_1 filtersize_1 stride x
  let a ← batchNorm1dShape filterno_1 a
  let a ← reluShape a
  let a ← conv1dValid filterno_1 filterno_2 filtersize_2 1 a
  let a ← batchNorm1dShape filterno_2 a
  reluShape a

/-- Shape behaviour of `KanResModule.forward` from `src/model.py`:
conv1 ('same') → bn1 → relu1 → conv2 ('same', stride 1) → bn2 → relu2,
followed by the additive skip `out + identity`. -/
def KanResModule (in_channels filterno_1 filterno_2 filtersize_1 filtersize_2 stride : Nat)
    (x : TensorShape) : Option TensorShape := do
  let out ← conv1dSame in_channels filterno_1 filtersize_1 stride x
  let out ← batchNorm1dShape filterno_1 out
  let out ← reluShape out
  let out ← conv1dSame filterno_1 filterno_2 filtersize_2 1 out
  let out ← batchNorm1dShape filterno_2 out
  let out ← reluShape out
  addShape out x

/-- The `self.res_modules` stack of `KanResWideX`:
`[KanResModule(32, 64, 32, 50, 50, 1) for _ in range(8)]`. -/
def res_modules : List (TensorShape → Option TensorShape) :=
  List.replicate 8 (KanResModule 32 64 32 50 50 1)

/-- Sequential application `for res_module in self.res_modules: x = res_module(x)`. -/
def applyModules (ms : List (TensorShape → Option TensorShape)) (s : TensorShape) :
    Option TensorShape :=
  match ms with
  | [] => some s
  | m :: rest => do
    let a ← m s
    applyModules rest a

/-- Shape behaviour of `KanResWideX.forward` from `src/model.py`: stem
(`KanResInit(input_channels, 64, 32, 8, 3, 1)`), `AvgPool1d(2)`, the stack of
8 residual modules, `AdaptiveAvgPool1d(1)`, `squeeze(-1)`, and the final
`Linear(32, output_size)` producing the logit matrix `(batch, output_size)`. -/
def KanResWideX (input_channels output_size : Nat) (x : TensorShape) :
    Option (Nat × Nat) := do
  let a ← KanResInit input_channels 64 32 8 3 1 x
  let a ← avgPool1dShape 2 a
  let a ← applyModules res_modules a
  let a ← adaptiveAvgPool1Shape a
  linearShape 32 output_size (a.batch, a.channels)

/-! ## Helper lemmas -/

theorem pyRange_length (stop step : Nat) :
    (pyRange stop step).length = (stop + step - 1) / step := by
  simp [pyRange]

theorem pyRange_getD (stop step i : Nat) (hi : i < (pyRange stop step).length) :
    (pyRange stop step).getD i 0 = i * step := by
  simp only [pyRange, List.length_map, List.length_range] at hi
  rw [List.getD_eq_getElem?_getD, pyRange,
    List.getElem?_eq_getElem (by simpa using hi)]
  simp

theorem pyRange_mem (stop step start : Nat) (hstep : 0 < step)
    (h : start ∈ pyRange stop step) : ∃ i, start = i * step ∧ i * step < stop := by
  simp only [pyRange, List.mem_map, List.mem_range] at h
  obtain ⟨i, hi, rfl⟩ := h
  refine ⟨i, rfl, ?_⟩
  rcases Nat.eq_zero_or_pos stop with h0 | h0
  · subst h0
    rw [Nat.zero_add, Nat.div_eq_of_lt (by omega)] at hi
    omega
  · have hrw : stop + step - 1 = (stop - 1) + step := by omega
    rw [hrw, Nat.add_div_right _ hstep] at hi
    have h2 : i ≤ (stop - 1) / step := by omega
    have h3 : i * step ≤ (stop - 1) / step * step :=
      Nat.mul_le_mul_right _ h2
    have h4 : (stop - 1) / step * step ≤ stop - 1 := Nat.div_mul_le_self _ _
    omega

theorem pyRange_index_lt (stop step i : Nat) (hstep : 0 < step)
    (hi : i < (pyRange stop step).length) : i * step < stop := by
  rw [pyRange_length] at hi
  rcases Nat.eq_zero_or_pos stop with h0 | h0
  · subst h0
    rw [Nat.zero_add, Nat.div_eq_of_lt (by omega)] at hi
    omega
  · have hrw : stop + step - 1 = (stop - 1) + step := by omega
    rw [hrw, Nat.add_div_right _ hstep] at hi
    have h2 : i ≤ (stop - 1) / step := by omega
    have h3 : i * step ≤ (stop - 1) / step * step := Nat.mul_le_mul_right _ h2
    have h4 : (stop - 1) / step * step ≤ stop - 1 := Nat.div_mul_le_self _ _
    omega

theorem create_windows_start_le (signal : List Int) (W S i : Nat)
    (hS : 0 < S) (hi : i < (pyRange (signal.length + 1 - W) S).length) :
    i * S + W ≤ signal.length := by
  have h1 := pyRange_index_lt (signal.length + 1 - W) S i hS hi
  omega

theorem pyRange_getElem (stop step i : Nat) (hi : i < (pyRange stop step).length) :
    (pyRange stop step)[i] = i * step := by
  simp [pyRange]

/-- C2: for every signal of length `L`, window size `W > 0` and stride
`S > 0`, `create_windows` produces windows starting exactly at positions
`0, S, 2S, …` with `start + W ≤ L`; when `W ≤ L` it returns exactly
`(L − W) / S + 1` windows, each of exactly `W` consecutive signal samples,
and when `L < W` it returns an empty window set without error. -/
theorem C2_create_windows (signal : List Int) (labels : List Nat) (W S : Nat)
    (hW : 0 < W) (hS : 0 < S) :
    (W ≤ signal.length →
      (create_windows signal labels W S).1.length = (signal.length - W) / S + 1) ∧
    (signal.length < W → create_windows signal labels W S = ([], [])) ∧
    (∀ w ∈ (create_windows signal labels W S).1, w.length = W) ∧
    (∀ i, i < (create_windows signal labels W S).1.length →
      (create_windows signal labels W S).1.getD i [] =
        (signal.drop (i * S)).take W ∧ i * S + W ≤ signal.length) := by
  refine ⟨?_, ?_, ?_, ?_⟩
  · intro hWL
    simp only [create_windows, List.length_map, pyRange_length]
    have hrw : signal.length + 1 - W + S - 1 = (signal.length - W) + S := by omega
    rw [hrw, Nat.add_div_right _ hS]
  · intro hLW
    have h0 : signal.length + 1 - W = 0 := by omega
    have hnil : pyRange 0 S = [] := by
      simp [pyRange, Nat.div_eq_of_lt (show S - 1 < S by omega)]
    simp [create_windows, h0, hnil]
  · intro w hw
    simp only [create_windows, List.mem_map] at hw
    obtain ⟨start, hstart, rfl⟩ := hw
    obtain ⟨i, rfl, hlt⟩ := pyRange_mem _ _ _ hS hstart
    rw [List.length_take, List.length_drop]
    omega
  · intro i hi
    simp only [create_windows, List.length_map] at hi
    have hle := create_windows_start_le signal W S i hS hi
    refine ⟨?_, hle⟩
    simp only [create_windows]
    rw [List.getD_eq_getElem?_getD, List.getElem?_eq_getElem (by simpa using hi)]
    simp [pyRange_getElem _ _ _ hi]

/-- Witness for C2 at `L = 7`, `W = 3`, `S = 2`. -/
theorem C2_create_windows_witness :
    ((3 : Nat) ≤ ([10, 20, 30, 40, 50, 60, 70] : List Int).length →
      (create_windows [10, 20, 30, 40, 50, 60, 70] [1, 1, 0, 0, 0, 1, 1] 3 2).1.length =
        (([10, 20, 30, 40, 50, 60, 70] : List Int).length - 3) / 2 + 1) ∧
    (∀ w ∈ (create_windows [10, 20, 30, 40, 50, 60, 70] [1, 1, 0, 0, 0, 1, 1] 3 2).1,
      w.length = 3) :=
  ⟨(C2_create_windows [10, 20, 30, 40, 50, 60, 70] [1, 1, 0, 0, 0, 1, 1] 3 2
      (by decide) (by decide)).1,
   (C2_create_windows [10, 20, 30, 40, 50, 60, 70] [1, 1, 0, 0, 0, 1, 1] 3 2
      (by decide) (by decide)).2.2.1⟩

/-- C3: for every window produced by `create_windows` over a binary 0/1 label
array, the window's label equals 1 when the mean of the labels in
`[start, start + W)` is at least 1/2, and 0 otherwise. -/
theorem C3_window_label (signal : List Int) (labels : List Nat) (W S : Nat)
    (hlen : labels.length = signal.length) (_hbin : ∀ x ∈ labels, x ≤ 1)
    (hW : 0 < W) (hS : 0 < S) (i : Nat)
    (hi : i < (create_windows signal labels W S).2.length) :
    (create_windows signal labels W S).2.getD i 0 =
      if (1 : ℚ) / 2 ≤ (((labels.drop (i * S)).take W).sum : ℚ) / (W : ℚ)
      then 1 else 0 := by
  simp only [create_windows, List.length_map] at hi
  have hle := create_windows_start_le signal W S i hS hi
  have hslice : ((labels.drop (i * S)).take W).length = W := by
    rw [List.length_take, List.length_drop]
    omega
  have hWQ : (0 : ℚ) < (W : ℚ) := by exact_mod_cast hW
  have hiff : ((1 : ℚ) / 2 ≤ (((labels.drop (i * S)).take W).sum : ℚ) / (W : ℚ)) ↔
      (W ≤ 2 * ((labels.drop (i * S)).take W).sum) := by
    rw [div_le_div_iff₀ (by norm_num) hWQ, one_mul]
    constructor
    · intro h
      have h2 : (W : ℚ) ≤ 2 * (((labels.drop (i * S)).take W).sum : ℚ) := by linarith
      exact_mod_cast h2
    · intro h
      have h2 : (W : ℚ) ≤ 2 * (((labels.drop (i * S)).take W).sum : ℚ) := by
        exact_mod_cast h
      linarith
  simp only [create_windows]
  rw [List.getD_eq_getElem?_getD, List.getElem?_eq_getElem (by simpa using hi)]
  simp only [List.getElem_map, Option.getD_some, pyRange_getElem _ _ _ hi]
  rw [windowLabel, hslice, if_neg (by omega)]
  simp only [hiff]

/-- Witness for C3 at `L = 7`, `W = 3`, `S = 2`, window 0. -/
theorem C3_window_label_witness :
    (create_windows [10, 20, 30, 40, 50, 60, 70] [1, 1, 0, 0, 0, 1, 1] 3 2).2.getD 0 0 =
      if (1 : ℚ) / 2 ≤
          (((([1, 1, 0, 0, 0, 1, 1] : List Nat).drop (0 * 2)).take 3).sum : ℚ) / ((3 : Nat) : ℚ)
      then 1 else 0 :=
  C3_window_label [10, 20, 30, 40, 50, 60, 70] [1, 1, 0, 0, 0, 1, 1] 3 2
    (by decide) (by decide) (by decide) (by decide) 0 (by decide)

theorem sliceAssignFrom_getD (v : String) (l : List String) :
    ∀ j lo hi k, (sliceAssignFrom j lo hi v l).getD k "" =
      if lo ≤ j + k ∧ j + k < hi ∧ k < l.length then v else l.getD k "" := by
  induction l with
  | nil =>
    intro j lo hi k
    simp [sliceAssignFrom]
  | cons x xs ih =>
    intro j lo hi k
    cases k with
    | zero =>
      simp only [sliceAssignFrom, List.getD_cons_zero, Nat.add_zero, List.length_cons]
      exact if_congr (by omega) rfl rfl
    | succ k =>
      simp only [sliceAssignFrom, List.getD_cons_succ, List.length_cons]
      rw [ih (j + 1) lo hi k]
      exact if_congr (by omega) rfl rfl

theorem sliceAssign_getD (l : List String) (lo hi : Nat) (v : String) (k : Nat) :
    (sliceAssign l lo hi v).getD k "" =
      if lo ≤ k ∧ k < hi ∧ k < l.length then v else l.getD k "" := by
  rw [sliceAssign, sliceAssignFrom_getD]
  exact if_congr (by omega) rfl rfl

theorem sliceAssignFrom_length (v : String) (l : List String) :
    ∀ j lo hi, (sliceAssignFrom j lo hi v l).length = l.length := by
  induction l with
  | nil => intro j lo hi; rfl
  | cons x xs ih => intro j lo hi; simp [sliceAssignFrom, ih]

theorem sliceAssign_length (l : List String) (lo hi : Nat) (v : String) :
    (sliceAssign l lo hi v).length = l.length :=
  sliceAssignFrom_length v l 0 lo hi

theorem sliceAssignFrom_id (v : String) (l : List String) :
    ∀ j lo hi, (∀ k, k < l.length → ¬(lo ≤ j + k ∧ j + k < hi)) →
      sliceAssignFrom j lo hi v l = l := by
  induction l with
  | nil => intro j lo hi _; rfl
  | cons x xs ih =>
    intro j lo hi h
    simp only [sliceAssignFrom]
    rw [if_neg (by have := h 0 (by simp); omega)]
    rw [ih (j + 1) lo hi (fun k hk => by
      have := h (k + 1) (by simp; omega)
      omega)]

theorem applySegments_length (L : Nat) (ch : List (Nat × String)) :
    ∀ labels : List String, (applySegments L ch labels).length = labels.length := by
  induction ch with
  | nil => intro labels; rfl
  | cons e rest ih =>
    intro labels
    obtain ⟨s, a⟩ := e
    simp only [applySegments]
    rw [ih, sliceAssign_length]

theorem applySegments_getD_lt (L : Nat) (ch : List (Nat × String)) :
    ∀ (labels : List String) (m : Nat), (∀ e ∈ ch, m ≤ e.1) → ∀ k, k < m →
      (applySegments L ch labels).getD k "" = labels.getD k "" := by
  induction ch with
  | nil => intro labels m _ k _; rfl
  | cons e rest ih =>
    intro labels m hm k hk
    obtain ⟨s, a⟩ := e
    have hs : m ≤ s := hm (s, a) (List.mem_cons_self _ _)
    have hrest : ∀ e ∈ rest, m ≤ e.1 := fun e he => hm e (List.mem_cons_of_mem _ he)
    simp only [applySegments]
    rw [ih _ m hrest k hk, sliceAssign_getD, if_neg (by omega)]

theorem applySegments_cons_nil (L : Nat) (s : Nat) (a : String) (labels : List String) :
    applySegments L [(s, a)] labels = sliceAssign labels s L (rhythm_map a) := rfl

theorem applySegments_cons_cons (L : Nat) (s : Nat) (a : String) (s2 : Nat) (a2 : String)
    (rest : List (Nat × String)) (labels : List String) :
    applySegments L ((s, a) :: (s2, a2) :: rest) labels =
      applySegments L ((s2, a2) :: rest) (sliceAssign labels s s2 (rhythm_map a)) := rfl

theorem applySegments_getD_spec (L : Nat) (rest : List (Nat × String)) :
    ∀ (s : Nat) (a : String) (labels : List String), labels.length = L →
      ((s, a) :: rest).Pairwise (fun e f => e.1 ≤ f.1) →
      ∀ k, s ≤ k → k < L →
      (applySegments L ((s, a) :: rest) labels).getD k "" =
        specSegLabel ((s, a) :: rest) k := by
  induction rest with
  | nil =>
    intro s a labels hlen _ k hsk hkL
    rw [applySegments_cons_nil]
    rw [sliceAssign_getD, if_pos ⟨hsk, by omega, by omega⟩]
    simp [specSegLabel, Nat.not_lt.mpr hsk]
  | cons e rest2 ih =>
    obtain ⟨s2, a2⟩ := e
    intro s a labels hlen hpw k hsk hkL
    have hpw2 : ((s2, a2) :: rest2).Pairwise (fun e f => e.1 ≤ f.1) :=
      (List.pairwise_cons.mp hpw).2
    by_cases hk2 : k < s2
    · have hall : ∀ f ∈ (s2, a2) :: rest2, s2 ≤ f.1 := by
        intro f hf
        rcases List.mem_cons.mp hf with h | h
        · rw [h]
        · exact (List.pairwise_cons.mp hpw2).1 f h
      rw [applySegments_cons_cons]
      rw [applySegments_getD_lt L _ _ s2 hall k hk2]
      rw [sliceAssign_getD, if_pos ⟨hsk, hk2, by omega⟩]
      simp [specSegLabel, Nat.not_lt.mpr hsk, hk2]
    · push_neg at hk2
      rw [applySegments_cons_cons]
      rw [ih s2 a2 _ (by rw [sliceAssign_length]; exact hlen) hpw2 k hk2 hkL]
      simp [specSegLabel, Nat.not_lt.mpr hsk, Nat.not_lt.mpr hk2]

theorem replicate_getD (n k : Nat) (a : String) (hk : k < n) :
    (List.replicate n a).getD k "" = a := by
  rw [List.getD_eq_getElem?_getD, List.getElem?_replicate, if_pos hk]
  rfl

/-- C1: for every ordered annotation event sequence and signal length `L`,
`get_rhythm_labels` keeps exactly the events whose auxiliary string is
nonempty and begins with `'('`, labels sample `k` by the segment structure of
`specSegLabel` (table lookup with default `"other"`, each boundary's name up
to the next boundary, the final boundary extended to `L`, `"unknown"` before
the first boundary), and returns an array of length exactly `L`, all
`"unknown"` when there are zero boundary events. -/
theorem C1_rhythm_labels (events : List (Nat × String)) (L : Nat)
    (hsorted : events.Pairwise (fun e f => e.1 ≤ f.1)) :
    (get_rhythm_labels events L).length = L ∧
    (∀ k, k < L → (get_rhythm_labels events L).getD k "" =
      specSegLabel (rhythm_changes events) k) ∧
    (rhythm_changes events = [] →
      get_rhythm_labels events L = List.replicate L "unknown") := by
  have hpw : (rhythm_changes events).Pairwise (fun e f => e.1 ≤ f.1) :=
    hsorted.filter _
  refine ⟨?_, ?_, ?_⟩
  · rw [get_rhythm_labels, applySegments_length, List.length_replicate]
  · intro k hk
    rw [get_rhythm_labels]
    rcases hch : rhythm_changes events with _ | ⟨⟨s, a⟩, rest⟩
    · rw [show applySegments L [] (List.replicate L "unknown") =
          List.replicate L "unknown" from rfl,
        replicate_getD L k "unknown" hk]
      rfl
    · rw [hch] at hpw
      by_cases hks : k < s
      · have hall : ∀ e ∈ (s, a) :: rest, s ≤ e.1 := by
          intro f hf
          rcases List.mem_cons.mp hf with h | h
          · rw [h]
          · exact (List.pairwise_cons.mp hpw).1 f h
        rw [applySegments_getD_lt L _ _ s hall k hks, replicate_getD L k "unknown" hk]
        simp [specSegLabel, hks]
      · push_neg at hks
        exact applySegments_getD_spec L rest s a _ (by simp) hpw k hks hk
  · intro hch
    rw [get_rhythm_labels, hch]
    rfl

/-- Witness for C1: boundaries at samples 0, 3, 7 with codes `(N`, `(AFIB`
and the unmapped `(ZZ` on a signal of length 10. -/
theorem C1_rhythm_labels_witness :
    (get_rhythm_labels [(0, "(N"), (3, "(AFIB"), (7, "(ZZ")] 10).length = 10 ∧
    (get_rhythm_labels [(0, "(N"), (3, "(AFIB"), (7, "(ZZ")] 10).getD 4 "" =
      specSegLabel (rhythm_changes [(0, "(N"), (3, "(AFIB"), (7, "(ZZ")]) 4 :=
  ⟨(C1_rhythm_labels [(0, "(N"), (3, "(AFIB"), (7, "(ZZ")] 10 (by decide)).1,
   (C1_rhythm_labels [(0, "(N"), (3, "(AFIB"), (7, "(ZZ")] 10 (by decide)).2.1 4
     (by decide)⟩

/-- C10: for every annotation event sequence — including out-of-order or
out-of-range boundary samples — and every signal length `L`,
`get_rhythm_labels` returns an array of length exactly `L` and never fails:
a reversed segment (`hi ≤ lo`) or an out-of-range segment
(`labels.length ≤ lo`) degenerates to an empty slice assignment that leaves
the array unchanged. -/
theorem C10_malformed_safe (events : List (Nat × String)) (L : Nat) :
    (get_rhythm_labels events L).length = L ∧
    (∀ labels lo hi v, hi ≤ lo → sliceAssign labels lo hi v = labels) ∧
    (∀ labels lo hi v, labels.length ≤ lo → sliceAssign labels lo hi v = labels) := by
  refine ⟨?_, ?_, ?_⟩
  · rw [get_rhythm_labels, applySegments_length, List.length_replicate]
  · intro labels lo hi v h
    exact sliceAssignFrom_id v labels 0 lo hi (fun k hk => by omega)
  · intro labels lo hi v h
    exact sliceAssignFrom_id v labels 0 lo hi (fun k hk => by omega)

/-- Witness for C10: boundaries out of order and past the end of a length-5
signal still give a length-5 array; reversed and out-of-range slice
assignments are identities. -/
theorem C10_malformed_safe_witness :
    (get_rhythm_labels [(7, "(AFIB"), (2, "(N"), (100, "(AFL")] 5).length = 5 ∧
    sliceAssign ["a", "b"] 3 1 "x" = ["a", "b"] ∧
    sliceAssign ["a", "b"] 7 9 "x" = ["a", "b"] :=
  ⟨(C10_malformed_safe [(7, "(AFIB"), (2, "(N"), (100, "(AFL")] 5).1,
   (C10_malformed_safe [] 0).2.1 ["a", "b"] 3 1 "x" (by decide),
   (C10_malformed_safe [] 0).2.2 ["a", "b"] 7 9 "x" (by decide)⟩

/-- Counterexample to C4 as stated: a record whose rhythm label array is the
absent sentinel (`None`) is skipped by `process_records` (it contributes no
windows and the build continues), but the skip is silent — the diagnostic
list is empty, so no message identifies record `"04936"` or its failure.
The claim that "each such skip produces a diagnostic message" is false. -/
theorem C4_counterexample :
    processRecords (fun _ => LoadResult.ok [1, 2, 3] none) ["04936"] 2 1 =
      ([], [], []) := by
  decide

/-- C4 (amended): every record whose load raises or whose rhythm label array
is the absent sentinel is skipped without aborting the build; a load
exception produces a diagnostic naming the record and the error, while the
absent-sentinel skip is silent.  The diagnostics are exactly
`recordMessage` applied to the records, and the accumulated windows and
labels come exactly from the records with a usable label array. -/
theorem C4_skip_behaviour (load : String → LoadResult) (record_list : List String)
    (window_size stride : Nat) :
    (processRecords load record_list window_size stride).2.2 =
      record_list.filterMap (recordMessage load window_size stride) ∧
    (processRecords load record_list window_size stride).1 =
      ((record_list.filterMap (recordContribution load window_size stride)).map
        Prod.fst).flatten ∧
    (processRecords load record_list window_size stride).2.1 =
      ((record_list.filterMap (recordContribution load window_size stride)).map
        Prod.snd).flatten := by
  induction record_list with
  | nil => exact ⟨rfl, rfl, rfl⟩
  | cons r rest ih =>
    obtain ⟨ih1, ih2, ih3⟩ := ih
    rcases hl : load r with e | ⟨sig, rl⟩
    · refine ⟨?_, ?_, ?_⟩ <;>
        simp [processRecords, recordMessage, recordContribution, hl, ih1, ih2, ih3]
    · rcases rl with _ | rl
      · refine ⟨?_, ?_, ?_⟩ <;>
          simp [processRecords, recordMessage, recordContribution, hl, ih1, ih2, ih3]
      · refine ⟨?_, ?_, ?_⟩ <;>
          simp [processRecords, recordMessage, recordContribution, hl, ih1, ih2, ih3]

/-- C5: when the annotation stream cannot be read, `load_record` does not
fail: it returns the record's signal, sampling frequency and signal length
with the rhythm label array set to the `none` sentinel; when the annotation
stream is read, the same fields are returned with the expanded label array. -/
theorem C5_load_record (record_name : String) (p_signal : List Int)
    (fs sig_len : Nat) (e : String) (events : List (Nat × String)) :
    load_record record_name p_signal fs sig_len (.error e) =
      ⟨record_name, p_signal, fs, sig_len, none⟩ ∧
    load_record record_name p_signal fs sig_len (.ok events) =
      ⟨record_name, p_signal, fs, sig_len,
        some (get_rhythm_labels events sig_len)⟩ :=
  ⟨rfl, rfl⟩

/-- C6: the record-level train/test split of `build_datasets` is
deterministic.  `train_test_split` is a function of exactly the record list,
the test fraction and the seed, so two applications to the same inputs agree;
and since `build_datasets` fixes `random_state=42`, the partition produced by
`build_datasets_split` is independent of any ambient run entropy. -/
theorem C6_split_deterministic (entropy1 entropy2 : Nat) (records : List String)
    (test_size : ℚ) (seed : Nat) :
    train_test_split records test_size seed = train_test_split records test_size seed ∧
    build_datasets_split entropy1 records test_size =
      build_datasets_split entropy2 records test_size :=
  ⟨rfl, rfl⟩

theorem KanResModule_fixed (s : TensorShape) (hc : s.channels = 32) (hl : 0 < s.len) :
    KanResModule 32 64 32 50 50 1 s = some s := by
  obtain ⟨b, c, l⟩ := s
  have hc2 : c = 32 := hc
  have hl2 : 0 < l := hl
  subst hc2
  simp [KanResModule, conv1dSame, batchNorm1dShape, reluShape, addShape,
    broadcastDim, hl2]

theorem applyModules_replicate (n : Nat) (s : TensorShape)
    (hc : s.channels = 32) (hl : 0 < s.len) :
    applyModules (List.replicate n (KanResModule 32 64 32 50 50 1)) s = some s := by
  induction n with
  | zero => rfl
  | succ n ih =>
    rw [List.replicate_succ]
    simp only [applyModules]
    rw [KanResModule_fixed s hc hl]
    simpa using ih

/-- C7: every residual block in the `res_modules` stack of 8 preserves both
the sequence length and the channel count of its input — the output shape
equals the input shape whenever the block succeeds — which is the
well-formedness condition for the additive skip `out + identity`. -/
theorem C7_res_module_preserves (m : TensorShape → Option TensorShape)
    (hm : m ∈ res_modules) (s t : TensorShape) (h : m s = some t) :
    t.len = s.len ∧ t.channels = s.channels ∧ t = s := by
  have hmod : m = KanResModule 32 64 32 50 50 1 := List.eq_of_mem_replicate hm
  subst hmod
  obtain ⟨b, c, l⟩ := s
  by_cases hc : c = 32
  · by_cases hl : 0 < l
    · subst hc
      rw [KanResModule_fixed ⟨b, 32, l⟩ rfl hl] at h
      obtain rfl := (Option.some.inj h).symm
      exact ⟨rfl, rfl, rfl⟩
    · exfalso
      have hnone : KanResModule 32 64 32 50 50 1 ⟨b, c, l⟩ = none := by
        simp [KanResModule, conv1dSame]
        omega
      rw [hnone] at h
      cases h
  · exfalso
    have hnone : KanResModule 32 64 32 50 50 1 ⟨b, c, l⟩ = none := by
      simp [KanResModule, conv1dSame]
      omega
    rw [hnone] at h
    cases h

/-- Witness for C7: the block `KanResModule(32, 64, 32, 50, 50, 1)` on a
`(8, 32, 500)` input succeeds and returns the input shape. -/
theorem C7_res_module_preserves_witness :
    KanResModule 32 64 32 50 50 1 ⟨8, 32, 500⟩ = some ⟨8, 32, 500⟩ ∧
    ((⟨8, 32, 500⟩ : TensorShape).len = (⟨8, 32, 500⟩ : TensorShape).len ∧
      (⟨8, 32, 500⟩ : TensorShape).channels = (⟨8, 32, 500⟩ : TensorShape).channels ∧
      (⟨8, 32, 500⟩ : TensorShape) = ⟨8, 32, 500⟩) :=
  ⟨by decide,
   C7_res_module_preserves (KanResModule 32 64 32 50 50 1)
     (List.mem_replicate.mpr ⟨by decide, rfl⟩) ⟨8, 32, 500⟩ ⟨8, 32, 500⟩ (by decide)⟩

/-- C8: for every batch of shape `(batch, 1, len)` with `len` long enough for
the stem and pooling (`11 ≤ len`), the forward pass of `KanResWideX` returns
the logit shape `(batch, output_size)`. -/
theorem C8_forward_shape (batch len output_size : Nat) (h : 11 ≤ len) :
    KanResWideX 1 output_size ⟨batch, 1, len⟩ = some (batch, output_size) := by
  have c1 : conv1dValid 1 64 8 1 ⟨batch, 1, len⟩ = some ⟨batch, 64, len - 7⟩ := by
    simp [conv1dValid, show (8 : Nat) ≤ len by omega]
    omega
  have c2 : conv1dValid 64 32 3 1 ⟨batch, 64, len - 7⟩ = some ⟨batch, 32, len - 9⟩ := by
    simp [conv1dValid, show (3 : Nat) ≤ len - 7 by omega]
    omega
  have e1 : KanResInit 1 64 32 8 3 1 ⟨batch, 1, len⟩ = some ⟨batch, 32, len - 9⟩ := by
    simp [KanResInit, c1, c2, batchNorm1dShape, reluShape]
  have h9 : len - 9 - 2 = len - 11 := by omega
  have e2 : avgPool1dShape 2 ⟨batch, 32, len - 9⟩ =
      some ⟨batch, 32, (len - 11) / 2 + 1⟩ := by
    simp [avgPool1dShape, show (2 : Nat) ≤ len - 9 by omega, h9]
  have e3 : applyModules res_modules ⟨batch, 32, (len - 11) / 2 + 1⟩ =
      some ⟨batch, 32, (len - 11) / 2 + 1⟩ :=
    applyModules_replicate 8 ⟨batch, 32, (len - 11) / 2 + 1⟩ rfl (Nat.succ_pos _)
  have e4 : adaptiveAvgPool1Shape ⟨batch, 32, (len - 11) / 2 + 1⟩ =
      some ⟨batch, 32, 1⟩ := by
    simp [adaptiveAvgPool1Shape]
  simp [KanResWideX, e1, e2, e3, e4, linearShape]

/-- Witness for C8: a batch of shape `(8, 1, 1000)` yields logits of shape
`(8, 4)` with the default `output_size = 4`. -/
theorem C8_forward_shape_witness :
    (11 ≤ 1000) ∧ KanResWideX 1 4 ⟨8, 1, 1000⟩ = some (8, 4) :=
  ⟨by decide, C8_forward_shape 8 1000 4 (by decide)⟩

/-- C9: `get_records` returns the sorted list of stems of the `.hea` files in
the directory listing, excluding every stem ending in `'-'`; it raises no
error and an empty directory yields an empty catalog. -/
theorem C9_get_records (files : List String) :
    (get_records files).Sorted strLeP ∧
    (∀ r, r ∈ get_records files ↔
      ((∃ f ∈ files, strEndsWith f ".hea" = true ∧ strStem f = r) ∧
        strEndsWith r "-" = false)) ∧
    get_records [] = [] := by
  refine ⟨?_, ?_, ?_⟩
  · haveI : IsTotal String strLeP := ⟨fun a b => le_total a.data b.data⟩
    haveI : IsTrans String strLeP := ⟨fun a b c h1 h2 => le_trans h1 h2⟩
    exact List.sorted_insertionSort strLeP _
  · intro r
    rw [get_records, List.mem_insertionSort]
    simp only [List.mem_filter, List.mem_map, Bool.not_eq_true']
    constructor
    · rintro ⟨⟨f, ⟨hf, hhea⟩, hstem⟩, hdash⟩
      exact ⟨⟨f, hf, hhea, hstem⟩, hdash⟩
    · rintro ⟨⟨f, hf, hhea, hstem⟩, hdash⟩
      exact ⟨⟨f, ⟨hf, hhea⟩, hstem⟩, hdash⟩
  · rfl
